import Mathlib

/-!
Verification of the TeleForwarder forwarding-orchestration engine.

The definitions below are a shallow embedding of the repository's two
implementations of the engine: the hexagonal one under `teleforwarder/`
(`domain/services.py`, `application/use_cases.py`,
`infrastructure/telegram_gateway.py`) and the legacy one under `src/`
(`utils/single_user_forwarder.py`, `utils/fetch_messages.py`,
`utils/config_manager.py`).  Messages carry an id, a timestamp (an abstract
tick count; minutes are used in concrete instances), a plain-text body and a
media flag; the gateway's paginated retrieval is modelled as list slicing of
a newest-first feed.
-/

namespace TF

/-- Model of a Telegram message as the forwarder sees it (Telethon `Message`
and `teleforwarder.domain.model.TextMessage`): `id` (monotonically increasing),
`date` (timestamp tick), `text` (the plain-text body; `""` models a falsy
`m.message`), and `media` (`m.media is not None`). -/
structure Msg where
  id : Nat
  date : Nat
  text : String
  media : Bool
deriving DecidableEq

/-! ### Round-robin delivery cursor (`teleforwarder/domain/services.py`) -/

/-- Loop body of `round_robin`: `for _ in range(length): yield i, messages[i];
i = (i + 1) % length`, with fuel set to `len(messages)` by the caller. -/
def roundRobinAux (messages : List α) : Nat → Nat → List (Nat × α)
  | _, 0 => []
  | i, n + 1 =>
    match messages[i]? with
    | none => []
    | some m => (i, m) :: roundRobinAux messages ((i + 1) % messages.length) n

/-- `round_robin(messages, index)`: yields one full sweep of `(index, message)`
pairs, or nothing for an empty list (`if not messages: return`). -/
def round_robin (messages : List α) (index : Nat) : List (Nat × α) :=
  if messages.isEmpty then []
  else roundRobinAux messages index messages.length

/-- The cursor value the caller keeps after `for self._idx, msg in
round_robin(self._messages, self._idx)` finishes: the first component of the
last yielded pair, unchanged when nothing was yielded. -/
def kept_index (messages : List α) (index : Nat) : Nat :=
  match (round_robin messages index).getLast? with
  | some p => p.1
  | none => index

/-- Indices visited by `n` successive generator invocations when the caller
keeps the cursor across invocations, as `run_forever` does. -/
def sweep_indices (messages : List α) (index : Nat) : Nat → List Nat
  | 0 => []
  | n + 1 =>
    (round_robin messages index).map Prod.fst
      ++ sweep_indices messages (kept_index messages index) n

/-! ### Admission controller (`use_cases.py::_in_allowed_window`,
`single_user_forwarder.py` time-window gate) -/

/-- Hour of an instant: `utcMinutes` on the UTC clock converted to a zone at
offset `offsetMinutes`, then `.hour` (models `datetime.now(ZoneInfo(tz)).hour`). -/
def localHour (utcMinutes offsetMinutes : Nat) : Nat :=
  (utcMinutes + offsetMinutes) % 1440 / 60

/-- `ForwardDailyTexts._in_allowed_window`:
`settings.start_hour <= now_local.hour < settings.end_hour`. -/
def in_allowed_window (startHour endHour hour : Nat) : Bool :=
  decide (startHour ≤ hour) && decide (hour < endHour)

/-- The legacy gate in `forward_messages_async`: when `time_interval_enabled`
the window is checked, otherwise the cycle is allowed unconditionally. -/
def admission (enabled : Bool) (startHour endHour hour : Nat) : Bool :=
  !enabled || in_allowed_window startHour endHour hour

/-! ### Paginated retrieval (`client.get_messages`) -/

/-- `client.get_messages(channel, limit=limit, offset_id=offsetId)` against a
newest-first `feed`: the newest `limit` messages whose id is strictly below
`offsetId` (`offsetId = 0` meaning unbounded). -/
def get_messages (feed : List Msg) (limit offsetId : Nat) : List Msg :=
  (if offsetId = 0 then feed else feed.filter (fun m => m.id < offsetId)).take limit

/-- `client.get_messages(entity, limit=limit, min_id=minId)`: the newest
`limit` messages with id strictly greater than `minId`. -/
def get_messages_min_id (feed : List Msg) (limit minId : Nat) : List Msg :=
  (feed.filter (fun m => minId < m.id)).take limit

/-! ### Full-day message-window resolution -/

/-- The keep condition of `fetch_today_texts`: `if m.message and m.media is
None` — a non-empty text body and no media payload. -/
def keepText (m : Msg) : Bool :=
  m.text ≠ "" && !m.media

/-- The `while True` pagination loop of
`telegram_gateway.py::fetch_today_texts`: page through the feed newest-first,
within each page keep text-only messages until one dated before `dayStart`
is seen, advance `offset` to the page's last id, and stop once the page's
last message predates `dayStart` (or the page is empty). -/
def fetchTodayAux (feed : List Msg) (dayStart : Nat) : Nat → Nat → List Msg → List Msg
  | 0, _, acc => acc
  | fuel + 1, offset, acc =>
    let chunk := get_messages feed 100 offset
    match chunk.getLast? with
    | none => acc
    | some last =>
      let acc1 := acc ++ (chunk.takeWhile (fun m => !decide (m.date < dayStart))).filter keepText
      if last.date < dayStart then acc1
      else fetchTodayAux feed dayStart fuel last.id acc1

/-- `TelegramGateway.fetch_today_texts`: accumulate today's text-only
messages newest-first, then reverse to oldest-first. -/
def fetch_today_texts (feed : List Msg) (dayStart fuel : Nat) : List Msg :=
  (fetchTodayAux feed dayStart fuel 0 []).reverse

/-- The pagination loop of `fetch_messages.py::fetch_all_today_messages`:
same chunked walk, but every message dated on or after `dayStart` is kept —
there is no text/media filter in the legacy fetch. -/
def fetchAllTodayAux (feed : List Msg) (dayStart : Nat) : Nat → Nat → List Msg → List Msg
  | 0, _, acc => acc
  | fuel + 1, offsetId, acc =>
    let chunk := get_messages feed 100 offsetId
    match chunk.getLast? with
    | none => acc
    | some last =>
      let acc1 := acc ++ chunk.takeWhile (fun m => decide (dayStart ≤ m.date))
      if last.date < dayStart then acc1
      else fetchAllTodayAux feed dayStart fuel last.id acc1

/-- `fetch_all_today_messages`: legacy full-day fetch, reversed to
oldest-first at the end. -/
def fetch_all_today_messages (feed : List Msg) (dayStart fuel : Nat) : List Msg :=
  (fetchAllTodayAux feed dayStart fuel 0 []).reverse

/-! ### Incremental ("new"-mode) resolution and the watermark
(`single_user_forwarder.py`, `config_manager.py`) -/

/-- Stable insertion into an ascending-by-`date` list; among equal dates the
inserted (earlier-in-origin) element comes first.  Together with `sortByDate`
this models Python's stable `messages_to_forward.sort(key=lambda m: m.date)`. -/
def insertByDate (m : Msg) : List Msg → List Msg
  | [] => [m]
  | x :: xs => if x.date < m.date then x :: insertByDate m xs else m :: x :: xs

/-- Stable ascending sort by `date` (insertion sort; stability makes it
extensionally equal to Python's `list.sort` with the same key). -/
def sortByDate (l : List Msg) : List Msg :=
  l.foldr insertByDate []

/-- Lines 75–78 of `forward_messages_async` ("new" mode):
`get_messages(entity, limit=100, min_id=last_id)` then sort ascending by date. -/
def incremental_resolve (feed : List Msg) (lastId : Nat) : List Msg :=
  sortByDate (get_messages_min_id feed 100 lastId)

/-- `max(m.id for m in messages_to_forward)` over a list of ids. -/
def listMax (l : List Nat) : Nat :=
  l.foldl Nat.max 0

/-- The persisted watermark after one "new"-mode cycle: unchanged when the
resolved set is empty (`if not messages_to_forward: return`), otherwise
`set_last_forwarded_id(max(m.id for m in messages_to_forward))`. -/
def cycle_watermark (feed : List Msg) (lastId : Nat) : Nat :=
  match incremental_resolve feed lastId with
  | [] => lastId
  | m :: ms => listMax ((m :: ms).map Msg.id)

/-- Watermark after a sequence of "new"-mode cycles, one feed snapshot per
cycle. -/
def run_cycles (feeds : List (List Msg)) (w : Nat) : Nat :=
  feeds.foldl (fun acc feed => cycle_watermark feed acc) w

/-! ### Delivery executor (legacy sequential loop, lines 87–99 of
`single_user_forwarder.py`) -/

/-- Ids successfully sent to one destination inside its `try` block:
`none` means every send succeeded; `some k` means an exception (entity
resolution or a send failure) was raised at the k-th send, so only the first
`k` messages reached that destination before `except` logged and moved on. -/
def deliveredTo (msgs : List Msg) : Option Nat → List Nat
  | none => msgs.map Msg.id
  | some k => (msgs.take k).map Msg.id

/-- The sequential (`one_by_one`) delivery loop: destinations in list order,
messages in resolved order, each destination's failure caught by its own
`except` so the loop always runs to completion.  Returns the successful
`(destination, message id)` sends. -/
def deliver (dests : List String) (failAt : String → Option Nat) (msgs : List Msg) :
    List (String × Nat) :=
  dests.flatMap (fun d => (deliveredTo msgs (failAt d)).map (fun i => (d, i)))

/-- `SingleUserForwarder.forward_messages_async` in "new" mode: the admission
gate, then source-entity resolution (`sourceOk = false` models the
`get_entity` failure caught at lines 64–69), then incremental resolution,
delivery, and the watermark update.  Returns (a fetch happened, successful
sends, watermark after the cycle). -/
def forward_messages_async (enabled : Bool) (startHour endHour hour : Nat)
    (sourceOk : Bool) (feed : List Msg) (dests : List String)
    (failAt : String → Option Nat) (w : Nat) : Bool × List (String × Nat) × Nat :=
  if !admission enabled startHour endHour hour then (false, [], w)
  else if !sourceOk then (false, [], w)
  else
    match incremental_resolve feed w with
    | [] => (true, [], w)
    | m :: ms =>
      (true, deliver dests failAt (m :: ms), listMax ((m :: ms).map Msg.id))

/-! ### Gateway send loop (`telegram_gateway.py::forward_text`) -/

/-- Outcome of one `client.forward_messages(tg, raw)` call. -/
inductive SendOutcome where
  | ok
  | floodWait (seconds : Nat)
  | failed
deriving DecidableEq

/-- Observable event of the send loop. -/
inductive Ev where
  | sent (tg : String)
  | sleptDelay (d : Nat)
  | sleptCooldown (seconds : Nat)
  | loggedError (tg : String)
deriving DecidableEq

/-- `TelegramGateway.forward_text`: skip when the message has no raw payload;
otherwise visit each target once — on success send then sleep `delay`, on
`FloodWaitError` sleep the backend cooldown (`fwe.seconds`) and move on
without resending, and on any other exception log and move on. -/
def forward_text (hasRaw : Bool) (targets : List String)
    (send : String → SendOutcome) (delay : Nat) : List Ev :=
  if !hasRaw then []
  else
    targets.flatMap (fun tg =>
      match send tg with
      | .ok => [.sent tg, .sleptDelay delay]
      | .floodWait n => [.sleptCooldown n]
      | .failed => [.loggedError tg])

/-! ### Continuous-mode loop (`use_cases.py::ForwardDailyTexts.run_forever`) -/

/-- The in-memory state `run_forever` carries between iterations. -/
structure LoopState where
  messages : List Msg
  idx : Nat
deriving DecidableEq

/-- One iteration of the `while True` body of `run_forever`: when the window
check fails, sleep and leave the state alone; when it passes, unconditionally
call `_refresh_messages` (re-fetching today's texts and resetting `_idx` to
0), then return if no targets, sleep if the fresh set is empty, and otherwise
sweep it once, leaving `_idx` at the last yielded index.  The second
component records whether a fetch of the day's messages occurred. -/
def run_iteration (gateOpen hasTargets : Bool) (feed : List Msg)
    (dayStart fuel : Nat) (st : LoopState) : LoopState × Bool :=
  if !gateOpen then (st, false)
  else
    let msgs := fetch_today_texts feed dayStart fuel
    if !hasTargets then (⟨msgs, 0⟩, true)
    else
      match msgs with
      | [] => (⟨msgs, 0⟩, true)
      | m :: ms => (⟨m :: ms, kept_index (m :: ms) 0⟩, true)

/-! ### Concrete inputs used by the claims -/

/-- Newest-first feed with `n` text messages of ids (and dates) `n, …, 1`. -/
def descFeed : Nat → List Msg
  | 0 => []
  | n + 1 => Msg.mk (n + 1) (n + 1) "t" false :: descFeed n

/-- The §8 full-day scenario: 10:00 today (id 3), 00:01 today (id 2),
23:50 yesterday (id 1), with local midnight at tick 1440. -/
def feedDay : List Msg :=
  [Msg.mk 3 2040 "c" false, Msg.mk 2 1441 "b" false, Msg.mk 1 1430 "a" false]

/-- `feedDay` with the 10:00 message replaced by a text-less media message. -/
def feedDayMedia : List Msg :=
  [Msg.mk 3 2040 "" true, Msg.mk 2 1441 "b" false, Msg.mk 1 1430 "a" false]

/-- The §8 incremental scenario: available ids {40, 41, 43, 44, 50},
newest-first, dates consistent with ids. -/
def feedInc : List Msg :=
  [Msg.mk 50 50 "e" false, Msg.mk 44 44 "d" false, Msg.mk 43 43 "c" false,
   Msg.mk 41 41 "b" false, Msg.mk 40 40 "a" false]

/-- Failure assignment where destination `"@b"` raises at its first send and
the others succeed. -/
def failOnlyB : String → Option Nat :=
  fun d => if d = "@b" then some 0 else none

/-- Send outcomes where `"@b"` is rate limited with a 30-tick cooldown and
the others succeed. -/
def sendFloodB : String → SendOutcome :=
  fun tg => if tg = "@b" then .floodWait 30 else .ok

/-! ### Supporting lemmas -/

theorem mem_insertByDate {x m : Msg} {l : List Msg} :
    x ∈ insertByDate m l ↔ x = m ∨ x ∈ l := by
  induction l with
  | nil => simp [insertByDate]
  | cons y ys ih =>
    simp only [insertByDate]
    split
    · simp only [List.mem_cons, ih]
      tauto
    · simp only [List.mem_cons]

theorem mem_sortByDate {x : Msg} {l : List Msg} : x ∈ sortByDate l ↔ x ∈ l := by
  induction l with
  | nil => simp [sortByDate]
  | cons y ys ih =>
    show x ∈ insertByDate y (sortByDate ys) ↔ x ∈ y :: ys
    rw [mem_insertByDate, ih, List.mem_cons]

theorem length_insertByDate (m : Msg) (l : List Msg) :
    (insertByDate m l).length = l.length + 1 := by
  induction l with
  | nil => rfl
  | cons y ys ih =>
    simp only [insertByDate]
    split <;> simp [ih]

theorem length_sortByDate (l : List Msg) : (sortByDate l).length = l.length := by
  induction l with
  | nil => rfl
  | cons y ys ih =>
    show (insertByDate y (sortByDate ys)).length = ys.length + 1
    rw [length_insertByDate, ih]

theorem foldl_max_le_init (l : List Nat) (a : Nat) : a ≤ l.foldl Nat.max a := by
  induction l generalizing a with
  | nil => exact Nat.le_refl a
  | cons x xs ih => exact Nat.le_trans (Nat.le_max_left a x) (ih (Nat.max a x))

theorem le_foldl_max (l : List Nat) (x : Nat) (h : x ∈ l) (a : Nat) :
    x ≤ l.foldl Nat.max a := by
  induction l generalizing a with
  | nil => cases h
  | cons y ys ih =>
    rcases List.mem_cons.mp h with rfl | hm
    · exact Nat.le_trans (Nat.le_max_right a x) (foldl_max_le_init ys _)
    · exact ih hm _

theorem le_listMax (l : List Nat) (x : Nat) (h : x ∈ l) : x ≤ listMax l :=
  le_foldl_max l x h 0

theorem id_gt_of_mem_resolve {feed : List Msg} {w : Nat} {m : Msg}
    (h : m ∈ incremental_resolve feed w) : w < m.id := by
  unfold incremental_resolve at h
  rw [mem_sortByDate] at h
  unfold get_messages_min_id at h
  have h2 : m ∈ feed.filter (fun x => w < x.id) := List.take_subset _ _ h
  exact of_decide_eq_true (List.mem_filter.mp h2).2

theorem watermark_monotone_step (feed : List Msg) (w : Nat) :
    w ≤ cycle_watermark feed w := by
  unfold cycle_watermark
  split
  · exact Nat.le_refl w
  · next m ms heq =>
    have hm : m ∈ incremental_resolve feed w := by
      rw [heq]; exact List.mem_cons_self m ms
    have hid : w < m.id := id_gt_of_mem_resolve hm
    have hmem : m.id ∈ (m :: ms).map Msg.id :=
      List.mem_map_of_mem Msg.id (List.mem_cons_self m ms)
    exact Nat.le_of_lt (Nat.lt_of_lt_of_le hid (le_listMax _ _ hmem))

theorem mem_fetchTodayAux {feed : List Msg} {dayStart : Nat} :
    ∀ (fuel offset : Nat) (acc : List Msg) (m : Msg),
      m ∈ fetchTodayAux feed dayStart fuel offset acc →
      m ∈ acc ∨ keepText m = true := by
  intro fuel
  induction fuel with
  | zero => intro offset acc m h; exact Or.inl h
  | succ n ih =>
    intro offset acc m h
    simp only [fetchTodayAux] at h
    split at h
    · exact Or.inl h
    · next last heq =>
      split at h
      · rcases List.mem_append.mp h with h1 | h2
        · exact Or.inl h1
        · exact Or.inr (List.mem_filter.mp h2).2
      · rcases ih last.id _ m h with h1 | h2
        · rcases List.mem_append.mp h1 with ha | hb
          · exact Or.inl ha
          · exact Or.inr (List.mem_filter.mp hb).2
        · exact Or.inr h2

theorem mem_fetch_today_texts {feed : List Msg} {dayStart fuel : Nat} {m : Msg}
    (h : m ∈ fetch_today_texts feed dayStart fuel) : keepText m = true := by
  unfold fetch_today_texts at h
  rw [List.mem_reverse] at h
  rcases mem_fetchTodayAux fuel 0 [] m h with h1 | h2
  · cases h1
  · exact h2

/-! ### Claims -/

/-- C1: evaluation of the round-robin cursor at the claim's input.  With a
message set of length 3, starting position 1 and the caller-kept cursor
continued across generator invocations as `run_forever` does, five
successive yields visit indices `1, 2, 0, 0, 1` — not `1, 2, 0, 1, 2` as
the claim states: the generator yields the *current* index where its own
docstring promises `(next_index, message)`, so the last index of a sweep is
visited again at the start of the next sweep.  The empty-set half of the
claim does hold: an empty set yields zero pairs. -/
theorem round_robin_cursor_eval :
    (sweep_indices ["a", "b", "c"] 1 2).take 5 = [1, 2, 0, 0, 1]
  ∧ (sweep_indices ["a", "b", "c"] 1 2).take 5 ≠ [1, 2, 0, 1, 2]
  ∧ round_robin ([] : List String) 0 = [] := by
  refine ⟨rfl, by decide, rfl⟩

/-- C2: the admission controller admits an instant iff its hour in the
configured time zone lies in `[startHour, endHour)`; it admits
unconditionally when the window is disabled, admits the boundary hour
`startHour`, and rejects the boundary hour `endHour`. -/
theorem admission_window_spec (enabled : Bool) (s e t off : Nat) (hse : s < e) :
    (admission enabled s e (localHour t off) = true ↔
      enabled = false ∨ (s ≤ localHour t off ∧ localHour t off < e))
  ∧ admission false s e (localHour t off) = true
  ∧ admission true s e s = true
  ∧ admission true s e e = false := by
  refine ⟨?_, rfl, ?_, ?_⟩
  · cases enabled <;> simp [admission, in_allowed_window]
  · simp [admission, in_allowed_window, Nat.le_refl, hse]
  · simp [admission, in_allowed_window, Nat.lt_irrefl]

/-- C2 witness: window 8–22, an instant at 10:00 UTC with a +3:30 offset
(13:30 local, hour 13), plus the two boundary hours. -/
theorem admission_window_spec_witness :
    (admission true 8 22 (localHour 600 210) = true ↔
      (true : Bool) = false ∨ (8 ≤ localHour 600 210 ∧ localHour 600 210 < 22))
  ∧ admission false 8 22 (localHour 600 210) = true
  ∧ admission true 8 22 8 = true
  ∧ admission true 8 22 22 = false :=
  admission_window_spec true 8 22 600 210 (by decide)

/-- C3 counterexample: the legacy full-day fetch `fetch_all_today_messages`
keeps a text-less media message dated today in its resolved set, so "every
message without plain-text content is excluded from the resolved set" fails
on that implementation. -/
theorem full_day_nontext_counterexample :
    Msg.mk 3 2040 "" true ∈ fetch_all_today_messages feedDayMedia 1440 4
  ∧ (Msg.mk 3 2040 "" true).text = "" := by
  refine ⟨by decide, rfl⟩

/-- C3 (amended): with a reverse-chronological feed holding messages dated
23:50 yesterday, 00:01 today and 10:00 today, both full-day resolvers return
exactly the two today messages oldest-first; messages without plain-text
content are excluded from `fetch_today_texts` (the `teleforwarder`
resolver), while the legacy `fetch_all_today_messages` performs no such
filtering. -/
theorem full_day_resolution_amended :
    (fetch_today_texts feedDay 1440 4).map Msg.id = [2, 3]
  ∧ (fetch_all_today_messages feedDay 1440 4).map Msg.id = [2, 3]
  ∧ (fetch_today_texts feedDayMedia 1440 4).map Msg.id = [2]
  ∧ ∀ (feed : List Msg) (dayStart fuel : Nat) (m : Msg),
      m ∈ fetch_today_texts feed dayStart fuel → m.text ≠ "" ∧ m.media = false := by
  refine ⟨by decide, by decide, by decide, ?_⟩
  intro feed dayStart fuel m h
  have hk := mem_fetch_today_texts h
  simpa [keepText] using hk

/-- C3 witness: the 00:01 message is resolved by `fetch_today_texts` and is
indeed a media-free text message. -/
theorem full_day_resolution_amended_witness :
    (Msg.mk 2 1441 "b" false).text ≠ "" ∧ (Msg.mk 2 1441 "b" false).media = false :=
  full_day_resolution_amended.2.2.2 feedDay 1440 4 (Msg.mk 2 1441 "b" false) (by decide)

/-- C4: incremental resolution with watermark 42 over available ids
{40, 41, 43, 44, 50} yields exactly ids 43, 44, 50 ascending by timestamp,
and the watermark persisted after the successful cycle is 50. -/
theorem incremental_resolution_spec :
    (incremental_resolve feedInc 42).map Msg.id = [43, 44, 50]
  ∧ cycle_watermark feedInc 42 = 50 := by
  refine ⟨by decide, by decide⟩

/-- C5: the persisted watermark is monotonically non-decreasing across
successful "new"-mode cycles: one cycle maps watermark `w` to a value
`≥ w`, and so does any sequence of cycles. -/
theorem watermark_monotonic (w : Nat) :
    (∀ feed : List Msg, w ≤ cycle_watermark feed w)
  ∧ ∀ feeds : List (List Msg), w ≤ run_cycles feeds w := by
  refine ⟨fun feed => watermark_monotone_step feed w, fun feeds => ?_⟩
  induction feeds generalizing w with
  | nil => exact Nat.le_refl w
  | cons f fs ih =>
    exact Nat.le_trans (watermark_monotone_step f w) (ih (cycle_watermark f w))

/-- C6: if in a "new"-mode cycle delivery to destination B fails while A and
C succeed, the cycle still runs to completion through the watermark update —
every resolved message is delivered to A and to C, and the watermark
advances to the maximum id of the attempted set, a value no smaller than the
old watermark. -/
theorem per_destination_isolation (enabled : Bool) (s e hour : Nat)
    (feed : List Msg) (w : Nat) (A B C : String)
    (failAt : String → Option Nat) (k : Nat)
    (hgate : admission enabled s e hour = true)
    (hA : failAt A = none) (_hB : failAt B = some k) (hC : failAt C = none)
    (m0 : Msg) (ms : List Msg)
    (hres : incremental_resolve feed w = m0 :: ms) :
    forward_messages_async enabled s e hour true feed [A, B, C] failAt w
      = (true, deliver [A, B, C] failAt (m0 :: ms), listMax ((m0 :: ms).map Msg.id))
  ∧ (∀ m ∈ m0 :: ms,
      (A, m.id) ∈ deliver [A, B, C] failAt (m0 :: ms)
    ∧ (C, m.id) ∈ deliver [A, B, C] failAt (m0 :: ms))
  ∧ w ≤ listMax ((m0 :: ms).map Msg.id) := by
  refine ⟨?_, ?_, ?_⟩
  · simp [forward_messages_async, hgate, hres]
  · intro m hm
    constructor
    · refine List.mem_flatMap.mpr ⟨A, by simp, ?_⟩
      rw [hA]
      exact List.mem_map_of_mem _ (List.mem_map_of_mem Msg.id hm)
    · refine List.mem_flatMap.mpr ⟨C, by simp, ?_⟩
      rw [hC]
      exact List.mem_map_of_mem _ (List.mem_map_of_mem Msg.id hm)
  · have hstep := watermark_monotone_step feed w
    unfold cycle_watermark at hstep
    rw [hres] at hstep
    exact hstep

/-- C6 witness: one resolved message (id 7), destinations `@a`, `@b`, `@c`
with `@b` raising at its first send — `@a` and `@c` still receive it. -/
theorem per_destination_isolation_witness :
    ("@a", 7) ∈ deliver ["@a", "@b", "@c"] failOnlyB [Msg.mk 7 7 "x" false]
  ∧ ("@c", 7) ∈ deliver ["@a", "@b", "@c"] failOnlyB [Msg.mk 7 7 "x" false] :=
  (per_destination_isolation true 0 24 12 [Msg.mk 7 7 "x" false] 0 "@a" "@b" "@c"
      failOnlyB 0 (by decide) (by decide) (by decide) (by decide)
      (Msg.mk 7 7 "x" false) [] (by decide)).2.1
    (Msg.mk 7 7 "x" false) (List.mem_cons_self _ _)

/-- C7: when the source entity cannot be resolved, the cycle aborts before
any fetch or delivery and leaves the watermark untouched: for every
configuration the outcome is (no fetch, no sends, unchanged watermark), and
nothing else happens until the next scheduled invocation. -/
theorem source_unavailable_atomicity (enabled : Bool) (s e hour : Nat)
    (feed : List Msg) (dests : List String) (failAt : String → Option Nat)
    (w : Nat) :
    forward_messages_async enabled s e hour false feed dests failAt w
      = (false, [], w) := by
  unfold forward_messages_async
  by_cases h : admission enabled s e hour <;> simp [h]

/-- C8: when the send to destination `b` signals a flood-wait with cooldown
`n`, the executor's event trace is the trace of the targets before `b`, then
a single sleep of exactly `n`, then the trace of the remaining targets: the
failed send is not retried (no `sent b` event ever occurs) and the loop
continues with the rest. -/
theorem rate_limit_cooldown (ts1 ts2 : List String) (b : String)
    (send : String → SendOutcome) (delay n : Nat)
    (hb : send b = .floodWait n) (h1 : b ∉ ts1) (h2 : b ∉ ts2) :
    forward_text true (ts1 ++ b :: ts2) send delay
      = forward_text true ts1 send delay
        ++ Ev.sleptCooldown n :: forward_text true ts2 send delay
  ∧ Ev.sent b ∉ forward_text true (ts1 ++ b :: ts2) send delay := by
  have hf : ∀ l : List String, forward_text true l send delay
      = l.flatMap (fun tg =>
          match send tg with
          | .ok => [Ev.sent tg, Ev.sleptDelay delay]
          | .floodWait c => [Ev.sleptCooldown c]
          | .failed => [Ev.loggedError tg]) := fun l => rfl
  have habs : ∀ (ts : List String), b ∉ ts →
      Ev.sent b ∉ forward_text true ts send delay := by
    intro ts hbts hmem
    rw [hf] at hmem
    rcases List.mem_flatMap.mp hmem with ⟨tg, htg, hin⟩
    cases hsend : send tg <;> rw [hsend] at hin <;> simp at hin
    exact hbts (hin ▸ htg)
  constructor
  · rw [hf, hf, hf, List.flatMap_append, List.flatMap_cons, hb]
    rfl
  · intro hmem
    rw [hf, List.flatMap_append, List.flatMap_cons, hb] at hmem
    rcases List.mem_append.mp hmem with hL | hR
    · exact habs ts1 h1 (by rw [hf]; exact hL)
    · rcases List.mem_append.mp hR with hM | hT
      · simp at hM
      · exact habs ts2 h2 (by rw [hf]; exact hT)

/-- C8 witness: targets `@a`, `@b`, `@c` with `@b` flood-waited for 30
ticks. -/
theorem rate_limit_cooldown_witness :
    (forward_text true (["@a"] ++ "@b" :: ["@c"]) sendFloodB 1
      = forward_text true ["@a"] sendFloodB 1
        ++ Ev.sleptCooldown 30 :: forward_text true ["@c"] sendFloodB 1)
  ∧ Ev.sent "@b" ∉ forward_text true (["@a"] ++ "@b" :: ["@c"]) sendFloodB 1 :=
  rate_limit_cooldown ["@a"] ["@c"] "@b" sendFloodB 1 30
    (by decide) (by decide) (by decide)

/-- C9 counterexample: an admitted iteration of `run_forever` whose current
message set is nonempty and still current for the day (it equals what a
fresh fetch of the same feed and day boundary returns) nevertheless performs
a fetch — `_refresh_messages` runs unconditionally — refuting "re-fetched
only when a new calendar day has started or the set is empty". -/
theorem continuous_refresh_counterexample :
    fetch_today_texts feedDay 1440 4 ≠ []
  ∧ (run_iteration true true feedDay 1440 4
      ⟨fetch_today_texts feedDay 1440 4, 1⟩).2 = true := by
  refine ⟨by decide, by decide⟩

/-- C9 (amended): every admitted iteration of the continuous loop re-fetches
the full-day window unconditionally, replacing the cursor's underlying set
with the fresh fetch (and `_refresh_messages` resets the cursor to 0 before
the sweep); only a non-admitted iteration leaves the state untouched with no
fetch. -/
theorem continuous_refresh_amended (hasTargets : Bool) (feed : List Msg)
    (dayStart fuel : Nat) (st : LoopState) :
    (run_iteration true hasTargets feed dayStart fuel st).2 = true
  ∧ (run_iteration true hasTargets feed dayStart fuel st).1.messages
      = fetch_today_texts feed dayStart fuel
  ∧ run_iteration false hasTargets feed dayStart fuel st = (st, false) := by
  refine ⟨?_, ?_, rfl⟩ <;>
  · unfold run_iteration
    cases hasTargets <;>
      cases h : fetch_today_texts feed dayStart fuel <;> simp [h]

/-- C10: in "new" mode a cycle fetches at most the newest 100 messages with
id above the watermark; when strictly more than 100 such messages exist in
the (reverse-chronological) feed, the resolved set holds exactly 100
messages, every above-watermark message left unresolved has id strictly
below the new watermark, and — the watermark never decreasing afterwards —
no later cycle over any feed ever resolves it: the watermark jumps past it
permanently. -/
theorem fetch_cap_gap (feed : List Msg) (w : Nat) (m : Msg)
    (hsorted : feed.Pairwise (fun a b => b.id < a.id))
    (hmany : 100 < (feed.filter (fun x => w < x.id)).length)
    (hm : m ∈ feed) (hw : w < m.id)
    (hnot : m ∉ incremental_resolve feed w) :
    (incremental_resolve feed w).length = 100
  ∧ m.id < cycle_watermark feed w
  ∧ ∀ w1 : Nat, cycle_watermark feed w ≤ w1 →
      ∀ feed1 : List Msg, m ∉ incremental_resolve feed1 w1 := by
  have hmfl : m ∈ feed.filter (fun x => w < x.id) :=
    List.mem_filter.mpr ⟨hm, decide_eq_true hw⟩
  have hlenr : (incremental_resolve feed w).length = 100 := by
    unfold incremental_resolve get_messages_min_id
    rw [length_sortByDate, List.length_take]
    omega
  have hnt : m ∉ (feed.filter (fun x => w < x.id)).take 100 := by
    intro hmem
    refine hnot ?_
    unfold incremental_resolve get_messages_min_id
    rw [mem_sortByDate]
    exact hmem
  have hdrop : m ∈ (feed.filter (fun x => w < x.id)).drop 100 := by
    have hsplit := List.take_append_drop 100 (feed.filter (fun x => w < x.id))
    rcases List.mem_append.mp (hsplit ▸ hmfl) with h | h
    · exact absurd h hnt
    · exact h
  have hpfl : (feed.filter (fun x => w < x.id)).Pairwise (fun a b => b.id < a.id) :=
    hsorted.sublist (List.filter_sublist _)
  have hcross : ∀ a ∈ (feed.filter (fun x => w < x.id)).take 100,
      ∀ b ∈ (feed.filter (fun x => w < x.id)).drop 100, b.id < a.id := by
    have hp : ((feed.filter (fun x => w < x.id)).take 100
        ++ (feed.filter (fun x => w < x.id)).drop 100).Pairwise
          (fun a b => b.id < a.id) := by
      rw [List.take_append_drop]
      exact hpfl
    exact (List.pairwise_append.mp hp).2.2
  have htlen : ((feed.filter (fun x => w < x.id)).take 100).length = 100 := by
    rw [List.length_take]; omega
  have htne : (feed.filter (fun x => w < x.id)).take 100 ≠ [] := by
    intro hnil
    rw [hnil] at htlen
    simp at htlen
  obtain ⟨a, ha⟩ := List.exists_mem_of_ne_nil _ htne
  have haid : m.id < a.id := hcross a ha m hdrop
  have hamem : a ∈ incremental_resolve feed w := by
    unfold incremental_resolve get_messages_min_id
    rw [mem_sortByDate]
    exact ha
  have hcw : cycle_watermark feed w
      = listMax ((incremental_resolve feed w).map Msg.id) := by
    unfold cycle_watermark
    split
    · next hres => rw [hres] at hlenr; simp at hlenr
    · next x xs hres => rw [hres]
  refine ⟨hlenr, ?_, ?_⟩
  · rw [hcw]
    exact Nat.lt_of_lt_of_le haid
      (le_listMax _ _ (List.mem_map_of_mem Msg.id hamem))
  · intro w1 hw1 feed1 hmem1
    have hgt : w1 < m.id := id_gt_of_mem_resolve hmem1
    have hlt : m.id < cycle_watermark feed w := by
      rw [hcw]
      exact Nat.lt_of_lt_of_le haid
        (le_listMax _ _ (List.mem_map_of_mem Msg.id hamem))
    omega

set_option maxRecDepth 100000 in
/-- C10 witness: a feed of 101 messages of ids 101 … 1, watermark 0: the
resolved set has 100 messages, the oldest message (id 1) is skipped below
the new watermark 101, and no later cycle at watermark ≥ 101 resolves it. -/
theorem fetch_cap_gap_witness :
    (incremental_resolve (descFeed 101) 0).length = 100
  ∧ (Msg.mk 1 1 "t" false).id < cycle_watermark (descFeed 101) 0
  ∧ Msg.mk 1 1 "t" false ∉ incremental_resolve (descFeed 101) 101 :=
  have h := fetch_cap_gap (descFeed 101) 0 (Msg.mk 1 1 "t" false)
    (by decide) (by decide) (by decide) (by decide) (by decide)
  ⟨h.1, h.2.1, h.2.2 101 (by decide) (descFeed 101)⟩

end TF
